import Mathlib

/-!
Shallow embedding of `smokelite/allocators/vertical.py` (vertical allocation
of single-layer gridded fields).

Scalars are modelled as `FloatV`: exact rationals extended with the IEEE
special values `inf`, `-inf` and `nan`, which numpy produces on division by
zero during renormalization.  Tables (pandas DataFrames) are ordered
association lists from column name to column values; gridded files
(PseudoNetCDF IOAPI files) carry an ordered variable map, where each
variable's data is a list of layers, each layer a flat list of cells (the
TSTEP, ROW and COL axes flattened, since all operations broadcast over
them uniformly).
-/

/-- IEEE-style scalar: a finite rational, `+inf`, `-inf`, or `nan`. -/
inductive FloatV where
  | fin (q : ℚ)
  | inf
  | ninf
  | nan
deriving DecidableEq, Repr

namespace FloatV

/-- IEEE addition on the model scalars (numpy `+` / `sum`). -/
def add : FloatV → FloatV → FloatV
  | nan, _ => nan
  | _, nan => nan
  | fin a, fin b => fin (a + b)
  | fin _, inf => inf
  | inf, fin _ => inf
  | fin _, ninf => ninf
  | ninf, fin _ => ninf
  | inf, inf => inf
  | ninf, ninf => ninf
  | inf, ninf => nan
  | ninf, inf => nan

/-- IEEE multiplication on the model scalars (numpy `*`). -/
def mul : FloatV → FloatV → FloatV
  | nan, _ => nan
  | _, nan => nan
  | fin a, fin b => fin (a * b)
  | fin a, inf => if 0 < a then inf else if a < 0 then ninf else nan
  | inf, fin a => if 0 < a then inf else if a < 0 then ninf else nan
  | fin a, ninf => if 0 < a then ninf else if a < 0 then inf else nan
  | ninf, fin a => if 0 < a then ninf else if a < 0 then inf else nan
  | inf, inf => inf
  | ninf, ninf => inf
  | inf, ninf => ninf
  | ninf, inf => ninf

/-- IEEE division on the model scalars (numpy `/`); `0/0` is `nan`,
`x/0` is a signed infinity for finite nonzero `x`. -/
def div : FloatV → FloatV → FloatV
  | nan, _ => nan
  | _, nan => nan
  | fin a, fin b =>
      if b = 0 then (if 0 < a then inf else if a < 0 then ninf else nan)
      else fin (a / b)
  | fin _, inf => fin 0
  | fin _, ninf => fin 0
  | inf, fin b => if 0 ≤ b then inf else ninf
  | ninf, fin b => if 0 ≤ b then ninf else inf
  | inf, inf => nan
  | inf, ninf => nan
  | ninf, inf => nan
  | ninf, ninf => nan

/-- IEEE comparison `0 < v` (numpy `> 0`): false on `nan`. -/
def gtZero : FloatV → Bool
  | fin a => decide (0 < a)
  | inf => true
  | ninf => false
  | nan => false

end FloatV

/-- numpy-style sum of a list of scalars, starting from `0.0` and adding
left to right (`ndarray.sum`). -/
def sumFV (l : List FloatV) : FloatV := l.foldl FloatV.add (FloatV.fin 0)

/-- Piecewise-linear interpolation over an increasing coordinate list `xp`
with values `fp`, evaluated at a point known to be `≥` the first
coordinate; beyond the last coordinate the last value is returned
(numpy `interp`'s right default). -/
def interpSeg : List ℚ → List ℚ → ℚ → ℚ
  | [_], f0 :: _, _ => f0
  | x0 :: x1 :: xr, f0 :: f1 :: fr, x =>
      if x ≤ x1 then f0 + (f1 - f0) * (x - x0) / (x1 - x0)
      else interpSeg (x1 :: xr) (f1 :: fr) x
  | _, _, _ => 0

/-- `np.interp(x, xp, fp, left=0)` at a single point: clamped to `0` below
the lowest source coordinate, linear in between, last value above. -/
def npInterpLeft0 (xp fp : List ℚ) (x : ℚ) : ℚ :=
  match xp with
  | [] => 0
  | x0 :: _ => if x < x0 then 0 else interpSeg xp fp x

/-- Column lookup in an association-list table (first match, like a
DataFrame column access). -/
def lookupCol {α : Type} (cols : List (String × List α)) (k : String) :
    Option (List α) :=
  (cols.find? (fun kv => decide (kv.1 = k))).map (fun kv => kv.2)

/-- Column access with empty default. -/
def getCol {α : Type} (cols : List (String × List α)) (k : String) : List α :=
  (lookupCol cols k).getD []

/-- `outdf[k] = v` on a column table: replace the column in place if the
name exists, else append it (pandas column assignment). -/
def setCol {α : Type} (cols : List (String × List α)) (k : String)
    (v : List α) : List (String × List α) :=
  if cols.any (fun kv => decide (kv.1 = k)) then
    cols.map (fun kv => if kv.1 = k then (kv.1, v) else kv)
  else
    cols ++ [(k, v)]

/-- `add_pressure`: append `Pressure = Sigma * (psfc - ptop) + ptop`
computed from the sigma column (the `inplace` flag only selects whether
the caller's table object is reused; the resulting table is the same). -/
def add_pressure (va_df : List (String × List ℚ)) (ptop psfc : ℚ)
    (sigmakey pressurekey : String) : List (String × List ℚ) :=
  setCol va_df pressurekey
    ((getCol va_df sigmakey).map (fun s => s * (psfc - ptop) + ptop))

/-- The target coordinates of `interp_va`: `x = vglvls[1:]`. -/
def vaTargets (vglvls : List ℚ) : List ℚ := vglvls.drop 1

/-- The raw normalized source coordinate of `interp_va`:
`xp = (Pressure - vgtop) / (psfc - vgtop)`. -/
def vaXpRaw (va_df : List (String × List ℚ)) (vgtop psfc : ℚ) : List ℚ :=
  (getCol va_df "Pressure").map (fun p => (p - vgtop) / (psfc - vgtop))

/-- `interp_va`'s orientation test: `xp[-1] < xp[0]`. -/
def vaInvert (va_df : List (String × List ℚ)) (vgtop psfc : ℚ) : Bool :=
  decide ((vaXpRaw va_df vgtop psfc).getLastD 0 <
    (vaXpRaw va_df vgtop psfc).headD 0)

/-- The oriented source coordinate: reversed when `vaInvert` holds. -/
def vaXp (va_df : List (String × List ℚ)) (vgtop psfc : ℚ) : List ℚ :=
  if vaInvert va_df vgtop psfc then (vaXpRaw va_df vgtop psfc).reverse
  else vaXpRaw va_df vgtop psfc

/-- One column of `interp_va` before renormalization: orient the series,
then interpolate at each target point with `left=0`. -/
def vaRawCol (x xp : List ℚ) (invert : Bool) (col : List ℚ) : List ℚ :=
  x.map (npInterpLeft0 xp (if invert then col.reverse else col))

/-- Renormalization `out[key] /= out[key].sum()` with IEEE semantics for
a zero sum. -/
def renormIEEE (ys : List ℚ) : List FloatV :=
  ys.map (fun y => FloatV.div (FloatV.fin y) (FloatV.fin ys.sum))

/-- One fully processed column of `interp_va`: interpolate, then
renormalize unless the key is a meta column. -/
def interpCol (x xp : List ℚ) (invert : Bool) (metakeys : List String)
    (key : String) (col : List ℚ) : List FloatV :=
  let raw := vaRawCol x xp invert col
  if key ∈ metakeys then raw.map FloatV.fin else renormIEEE raw

/-- `interp_va(va_df, vglvls, vgtop, psfc, metakeys)`: drop the first
target edge, normalize the `Pressure` column, orient, interpolate and
renormalize every column, then overwrite `Sigma` with the target values. -/
def interp_va (va_df : List (String × List ℚ)) (vglvls : List ℚ)
    (vgtop psfc : ℚ) (metakeys : List String) :
    List (String × List FloatV) :=
  let x := vaTargets vglvls
  let xp := vaXp va_df vgtop psfc
  let invert := vaInvert va_df vgtop psfc
  setCol
    (va_df.map (fun kv => (kv.1, interpCol x xp invert metakeys kv.1 kv.2)))
    "Sigma" (x.map FloatV.fin)

/-- A variable of an IOAPI file: whether it carries the `LAY` dimension,
and its data as layers of flattened cells. -/
structure PncVar where
  hasLAY : Bool
  data : List (List FloatV)
deriving DecidableEq, Repr

/-- An IOAPI-structured file: ordered variable map plus the
vertical-coordinate metadata `VGLVLS` and `NLAYS`. -/
structure PncFile where
  vars : List (String × PncVar)
  vglvls : List ℚ
  nlays : ℕ
deriving DecidableEq, Repr

/-- `infile.slice(LAY=idxs)`: remap the vertical dimension of every
variable that carries `LAY` to the given index list. -/
def sliceLAY (idxs : List ℕ) (f : PncFile) : PncFile :=
  { f with vars := f.vars.map (fun kv =>
      if kv.2.hasLAY then
        (kv.1, { kv.2 with data := idxs.map (fun i => kv.2.data.getD i []) })
      else kv) }

/-- The in-place broadcast `var[:] *= layerfractions[None, :, None, None]`:
layer `k` of the data is multiplied elementwise by fraction `k`. -/
def scaleByFracs (fracs : List FloatV) (data : List (List FloatV)) :
    List (List FloatV) :=
  List.zipWith (fun fr row => row.map (fun v => v.mul fr)) fracs data

/-- `make3d(infile, layerfractions, vglvls)`: replicate layer 0 `nz`
times, scale every variable except `TFLAG` by the layer fractions, and
set `VGLVLS` (the float cast is the identity on the rational model) and
`NLAYS = nz`. -/
def make3d (infile : PncFile) (layerfractions : List FloatV)
    (vglvls : List ℚ) : PncFile :=
  let nz := layerfractions.length
  let outfile := sliceLAY (List.replicate nz 0) infile
  { vars := outfile.vars.map (fun kv =>
      if kv.1 = "TFLAG" then kv
      else (kv.1, { kv.2 with data := scaleByFracs layerfractions kv.2.data })),
    vglvls := vglvls,
    nlays := nz }

/-- numpy sum over the `LAY` axis: pointwise `FloatV` sum of the layers,
starting from a zero row of width `w`. -/
def sumLAY : List (List FloatV) → ℕ → List FloatV
  | [], w => List.replicate w (FloatV.fin 0)
  | r :: rs, w => List.zipWith FloatV.add r (sumLAY rs w)

/-- `outdf.loc[:, 'LAYER1'] = 0; outdf.loc[0, 'LAYER1'] = 1`: append an
indicator column that is 1 on the first row and 0 elsewhere. -/
def addLayer1 (cols : List (String × List FloatV)) (nrows : ℕ) :
    List (String × List FloatV) :=
  cols ++ [("LAYER1", (List.range nrows).map
    (fun i => if i = 0 then FloatV.fin 1 else FloatV.fin 0))]

/-- The row-`i` sum of the columns of a table not named in `metakeys`
(one entry of `outdf.drop(metakeys, axis=1).values.sum(1)`). -/
def sectorRowSum (cols : List (String × List FloatV))
    (metakeys : List String) (i : ℕ) : FloatV :=
  sumFV ((cols.filter (fun kv => decide (¬ kv.1 ∈ metakeys))).map
    (fun kv => kv.2.getD i (FloatV.fin 0)))

/-- Row sums of `outdf.drop(metakeys, axis=1).values.sum(1)`: per row,
the `FloatV` sum over all columns not named in `metakeys`. -/
def rowSums (cols : List (String × List FloatV)) (metakeys : List String)
    (nrows : ℕ) : List FloatV :=
  (List.range nrows).map (fun i => sectorRowSum cols metakeys i)

/-- The `layerused` mask of `Vertical.__init__`: row sums `> 0`, the first
entry forced true, and every entry forced true when `prune` is off. -/
def usedMask (cols : List (String × List FloatV)) (metakeys : List String)
    (nrows : ℕ) (prune : Bool) : List Bool :=
  if prune then ((rowSums cols metakeys nrows).map FloatV.gtZero).set 0 true
  else List.replicate nrows true

/-- `outdf.loc[layerused]`: keep, in every column, exactly the rows whose
mask entry is true. -/
def filterRows (mask : List Bool) (cols : List (String × List FloatV)) :
    List (String × List FloatV) :=
  cols.map (fun kv => (kv.1,
    (List.zip mask kv.2).filterMap (fun bv => if bv.1 then some bv.2 else none)))

/-- The resident state of a `Vertical` allocator after `__init__`. -/
structure Vertical where
  outdf : List (String × List FloatV)
  outvglvls : List ℚ
  metakeys : List String
deriving DecidableEq, Repr

/-- Number of rows `interp_va` produces inside `Vertical.__init__`:
`__init__` passes `outvglvls[1:]` and `interp_va` drops the first entry
again, so the targets are `outvglvls[2:]`. -/
def verticalNRows (outvglvls : List ℚ) : ℕ :=
  (vaTargets (outvglvls.drop 1)).length

/-- `Vertical.__init__` (with the default `pressurekey='Pressure'` and
`sigmakey='Sigma'`): derive pressure if absent, interpolate onto
`outvglvls[1:]` (which `interp_va` truncates again), add the `LAYER1`
indicator, compute the used-layer mask and keep only the used rows. -/
def Vertical.init (indf : List (String × List ℚ)) (outvglvls : List ℚ)
    (outvgtop csvvgtop psfc : ℚ) (metakeys : List String) (prune : Bool) :
    Vertical :=
  let indf1 := if (lookupCol indf "Pressure").isSome then indf
    else add_pressure indf csvvgtop psfc "Sigma" "Pressure"
  let outdf0 := interp_va indf1 (outvglvls.drop 1) outvgtop psfc metakeys
  let nrows := verticalNRows outvglvls
  let outdf1 := addLayer1 outdf0 nrows
  let mask := usedMask outdf1 metakeys nrows prune
  { outdf := filterRows mask outdf1,
    outvglvls := outvglvls,
    metakeys := metakeys }

/-- The variables of a file that carry the `LAY` dimension
(`'LAY' in v.dimensions`), in declaration order. -/
def allKeys (f : PncFile) : List String :=
  (f.vars.filter (fun kv => kv.2.hasLAY)).map (fun kv => kv.1)

/-- `assigned_keys`: all variable names explicitly assigned to some
sector. -/
def assignedKeys (alloc_keys : List (String × Option (List String))) :
    List String :=
  (alloc_keys.filterMap (fun kv => kv.2)).flatten

/-- `isnone`: the sectors whose variable list is `None`, in order. -/
def noneSectors (alloc_keys : List (String × Option (List String))) :
    List String :=
  (alloc_keys.filter (fun kv => decide (kv.2 = none))).map (fun kv => kv.1)

/-- `unassigned_keys = set(all_keys).difference(assigned_keys)` (list
difference; only membership is relied upon downstream, matching the
unordered Python set). -/
def unassignedKeys (alloc_keys : List (String × Option (List String)))
    (all_keys : List String) : List String :=
  all_keys.filter (fun k => decide (¬ k ∈ assignedKeys alloc_keys))

/-- The sector-assignment resolution of `Vertical.allocate`: error when
more than one sector has a `None` list, and give a single `None` sector
the set difference of all eligible variables minus the explicitly
assigned ones (the dictionary entry is updated in place; here the
updated mapping is returned). -/
def resolveAllocKeys (alloc_keys : List (String × Option (List String)))
    (all_keys : List String) :
    Except String (List (String × Option (List String))) :=
  if 1 < (noneSectors alloc_keys).length then
    Except.error "Can only have 1 None sector"
  else if (noneSectors alloc_keys).length = 1 then
    Except.ok (alloc_keys.map (fun kv =>
      if kv.1 = (noneSectors alloc_keys).headD "" then
        (kv.1, some (unassignedKeys alloc_keys all_keys)) else kv))
  else Except.ok alloc_keys

/-- `infile.subset(varkeys)`: restrict the variable map to the named
variables. -/
def subsetF (f : PncFile) (keys : List String) : PncFile :=
  { f with vars := f.vars.filter (fun kv => decide (kv.1 ∈ keys)) }

/-- Modelled from the spec: `field.stack(others, stackdim='TSTEP')` (a
PseudoNetCDF collaborator not part of this repository) concatenates the
per-sector fields along the stacking axis into a new field, keeping the
first file's vertical metadata; with the non-LAY axes flattened into
cells, stacking concatenates cells layer by layer. -/
def stackF (fs : List PncFile) : PncFile :=
  match fs with
  | [] => ⟨[], [], 0⟩
  | f0 :: _ =>
    { vars := f0.vars.map (fun kv => (kv.1, { kv.2 with
        data :=
          match fs.filterMap
            (fun g => (lookupColVar g.vars kv.1).map PncVar.data) with
          | [] => []
          | d :: ds => ds.foldl (fun acc d2 =>
              List.zipWith (fun r1 r2 => r1 ++ r2) acc d2) d })),
      vglvls := f0.vglvls,
      nlays := f0.nlays }
where
  /-- first variable with the given name, if any. -/
  lookupColVar (vs : List (String × PncVar)) (k : String) : Option PncVar :=
    (vs.find? (fun kv => decide (kv.1 = k))).map (fun kv => kv.2)

/-- `Vertical.allocate(infile, alloc_keys)`: resolve the sector
assignment, expand each sector's subset of the file by its fraction
column via `make3d` with the full `outvglvls`, and stack the per-sector
files. -/
def Vertical.allocate (V : Vertical) (infile : PncFile)
    (alloc_keys : List (String × Option (List String))) :
    Except String PncFile :=
  match resolveAllocKeys alloc_keys (allKeys infile) with
  | Except.error e => Except.error e
  | Except.ok resolved =>
    Except.ok (stackF (resolved.map (fun kv =>
      make3d (subsetF infile (kv.2.getD []))
        (getCol V.outdf kv.1) V.outvglvls)))

/-!
Store-passing refinement used to settle the frame conditions: array data
lives in a `Store` indexed by reference, variables hold references, and
the in-place numpy update `var[:] *= ...` becomes an explicit store
update, so that "the caller's input field is not mutated" is expressible.
-/

/-- A store of arrays; a variable's `ref` indexes into it. -/
def Store : Type := List (List (List FloatV))

/-- Length of a store. -/
def Store.size (st : Store) : ℕ := List.length st

/-- Array lookup in a store. -/
def Store.read (st : Store) (r : ℕ) : List (List FloatV) :=
  List.getD st r []

/-- Append freshly allocated arrays to a store. -/
def Store.alloc (st : Store) (arrs : List (List (List FloatV))) : Store :=
  List.append st arrs

/-- Overwrite the array at a reference (in-place numpy assignment). -/
def Store.write (st : Store) (r : ℕ) (a : List (List FloatV)) : Store :=
  List.set st r a

/-- A variable holding a reference into the store. -/
structure PncVarR where
  hasLAY : Bool
  ref : ℕ
deriving DecidableEq, Repr

/-- A file whose variables reference arrays in a store. -/
structure PncFileR where
  vars : List (String × PncVarR)
  vglvls : List ℚ
  nlays : ℕ
deriving DecidableEq, Repr

/-- Rebind a variable list to consecutive fresh references starting at
`n`, preserving names, order and the `LAY` flag. -/
def freshVars (n : ℕ) : List (String × PncVarR) → List (String × PncVarR)
  | [] => []
  | kv :: rest => (kv.1, ⟨kv.2.hasLAY, n⟩) :: freshVars (n + 1) rest

/-- Modelled from the spec: `field.slice(LAY=idxs)` (PseudoNetCDF
collaborator) returns a new field whose arrays are freshly allocated;
variables carrying `LAY` get the remapped layers, others a copy. -/
def sliceLAYR (idxs : List ℕ) (f : PncFileR) (st : Store) :
    PncFileR × Store :=
  let newArrays := f.vars.map (fun kv =>
    let old := st.read kv.2.ref
    if kv.2.hasLAY then idxs.map (fun i => old.getD i []) else old)
  ({ f with vars := freshVars st.size f.vars }, st.alloc newArrays)

/-- The in-place update `var[:] *= layerfractions[None, :, None, None]`
on the array behind a reference. -/
def scaleRef (r : ℕ) (fracs : List FloatV) (st : Store) : Store :=
  st.write r (scaleByFracs fracs (st.read r))

/-- `make3d` over the store model: slice into fresh arrays, then scale
every non-`TFLAG` variable's array in place. -/
def make3dR (f : PncFileR) (fracs : List FloatV) (vglvls : List ℚ)
    (st : Store) : PncFileR × Store :=
  let nz := fracs.length
  let sliced := sliceLAYR (List.replicate nz 0) f st
  let st2 := sliced.1.vars.foldl
    (fun s kv => if kv.1 = "TFLAG" then s else scaleRef kv.2.ref fracs s)
    sliced.2
  ({ sliced.1 with vglvls := vglvls, nlays := nz }, st2)

/-- `infile.subset(varkeys)` over the store model: restrict the variable
map; per the spec the underlying storage is shared, so the references
are kept. -/
def subsetR (f : PncFileR) (keys : List String) : PncFileR :=
  { f with vars := f.vars.filter (fun kv => decide (kv.1 ∈ keys)) }

/-- The `LAY`-carrying variable names of a store-model file. -/
def allKeysR (f : PncFileR) : List String :=
  (f.vars.filter (fun kv => kv.2.hasLAY)).map (fun kv => kv.1)

/-- Modelled from the spec: `field.stack(...)` (PseudoNetCDF
collaborator) builds a new field with freshly allocated arrays holding
the per-sector concatenation; existing arrays are only read. -/
def stackR (fs : List PncFileR) (st : Store) : PncFileR × Store :=
  match fs with
  | [] => (⟨[], [], 0⟩, st)
  | f0 :: _ =>
    let newArrays := f0.vars.map (fun kv =>
      match fs.filterMap (fun g =>
        (g.vars.find? (fun kv2 => decide (kv2.1 = kv.1))).map
          (fun kv2 => st.read kv2.2.ref)) with
      | [] => []
      | d :: ds => ds.foldl (fun acc d2 =>
          List.zipWith (fun r1 r2 => r1 ++ r2) acc d2) d)
    ({ vars := freshVars st.size f0.vars, vglvls := f0.vglvls,
       nlays := f0.nlays }, st.alloc newArrays)

/-- `Vertical.allocate` over the store model: resolve the sector
assignment, run `make3dR` per sector threading the store, stack. -/
def Vertical.allocateR (V : Vertical) (infile : PncFileR)
    (alloc_keys : List (String × Option (List String))) (st : Store) :
    Except String PncFileR × Store :=
  match resolveAllocKeys alloc_keys (allKeysR infile) with
  | Except.error e => (Except.error e, st)
  | Except.ok resolved =>
    let step := resolved.foldl
      (fun (acc : List PncFileR × Store) kv =>
        let g := make3dR (subsetR infile (kv.2.getD []))
          (getCol V.outdf kv.1) V.outvglvls acc.2
        (acc.1 ++ [g.1], g.2))
      ([], st)
    let stacked := stackR step.1 step.2
    (Except.ok stacked.1, stacked.2)

/-! ### Arithmetic helper lemmas -/

lemma FloatV.fin_mul_fin (a b : ℚ) :
    (FloatV.fin a).mul (FloatV.fin b) = FloatV.fin (a * b) := rfl

lemma FloatV.fin_add_fin (a b : ℚ) :
    (FloatV.fin a).add (FloatV.fin b) = FloatV.fin (a + b) := rfl

lemma zipWith_map_same {α β γ δ : Type} (g : β → γ → δ) (f : α → β)
    (h : α → γ) (l : List α) :
    List.zipWith g (l.map f) (l.map h) = l.map (fun x => g (f x) (h x)) := by
  induction l with
  | nil => rfl
  | cons a rest ih => simp [ih]

lemma foldl_add_map_fin (l : List ℚ) (a : ℚ) :
    (l.map FloatV.fin).foldl FloatV.add (FloatV.fin a) =
      FloatV.fin (a + l.sum) := by
  induction l generalizing a with
  | nil => simp
  | cons b rest ih =>
    simp only [List.map_cons, List.foldl_cons, FloatV.fin_add_fin, ih,
      List.sum_cons]
    ring_nf

lemma sumFV_map_fin (l : List ℚ) : sumFV (l.map FloatV.fin) =
    FloatV.fin l.sum := by
  simpa using foldl_add_map_fin l 0

lemma sumLAY_scale_replicate (fqs qs : List ℚ) :
    sumLAY
      (scaleByFracs (fqs.map FloatV.fin)
        (List.replicate fqs.length (qs.map FloatV.fin))) qs.length =
      qs.map (fun q => FloatV.fin (q * fqs.sum)) := by
  induction fqs with
  | nil =>
    simp [scaleByFracs, sumLAY, List.map_const']
  | cons a rest ih =>
    simp only [List.map_cons, List.length_cons, List.replicate_succ,
      scaleByFracs, List.zipWith_cons_cons, sumLAY, List.sum_cons]
    rw [show List.zipWith
        (fun fr row => List.map (fun v => v.mul fr) row) (rest.map FloatV.fin)
        (List.replicate rest.length (qs.map FloatV.fin)) =
        scaleByFracs (rest.map FloatV.fin)
          (List.replicate rest.length (qs.map FloatV.fin)) from rfl, ih]
    rw [List.map_map, zipWith_map_same]
    apply List.map_congr_left
    intro q _
    simp only [Function.comp_apply, FloatV.fin_mul_fin, FloatV.fin_add_fin]
    ring_nf

/-- **C1**: for every input field whose data variables carry a single
vertical layer and every layer-fraction vector summing to 1, the output
of `make3d` summed over the `LAY` axis equals the original single-layer
values of every data variable (`TFLAG` excluded). -/
theorem make3d_sum_over_LAY (infile : PncFile) (fqs vglvls qs : List ℚ)
    (k : String) (v : PncVar)
    (hmem : (k, v) ∈ infile.vars) (hk : ¬ k = "TFLAG")
    (hlay : v.hasLAY = true) (hdata : v.data = [qs.map FloatV.fin])
    (hsum : fqs.sum = 1) :
    ∃ w : PncVar,
      (k, w) ∈ (make3d infile (fqs.map FloatV.fin) vglvls).vars ∧
      sumLAY w.data qs.length = qs.map FloatV.fin := by
  refine ⟨⟨v.hasLAY, scaleByFracs (fqs.map FloatV.fin)
      (List.replicate fqs.length (qs.map FloatV.fin))⟩, ?_, ?_⟩
  · unfold make3d sliceLAY
    simp only [List.map_map]
    apply List.mem_map.2
    refine ⟨(k, v), hmem, ?_⟩
    simp [hlay, hk, hdata, List.map_replicate]
  · rw [sumLAY_scale_replicate, hsum]
    simp

/-- Witness for C1: a field value 10 with fractions `[1/4, 3/4]` expands
to two layers that sum back to 10. -/
theorem make3d_sum_over_LAY_witness :
    ∃ w : PncVar,
      ("E", w) ∈ (make3d
          ⟨[("E", ⟨true, [[FloatV.fin 10]]⟩),
            ("TFLAG", ⟨false, [[FloatV.fin 7]]⟩)], [1, 0], 1⟩
          ([(1 : ℚ)/4, 3/4].map FloatV.fin) [1, 1/2, 0]).vars ∧
      sumLAY w.data 1 = [FloatV.fin 10] :=
  make3d_sum_over_LAY
    ⟨[("E", ⟨true, [[FloatV.fin 10]]⟩),
      ("TFLAG", ⟨false, [[FloatV.fin 7]]⟩)], [1, 0], 1⟩
    [1/4, 3/4] [1, 1/2, 0] [10] "E" ⟨true, [[FloatV.fin 10]]⟩
    (List.mem_cons_self _ _) (by decide) rfl rfl (by norm_num)

/-- `List.getD` through `List.map` at an in-range index. -/
lemma getD_map_of_lt {α β : Type} (f : α → β) (l : List α) (i : ℕ)
    (h : i < l.length) (d : β) (e : α) :
    (l.map f).getD i d = f (l.getD i e) := by
  induction l generalizing i with
  | nil => cases h
  | cons a rest ih =>
    cases i with
    | zero => rfl
    | succ j =>
      simp only [List.map_cons, List.getD_cons_succ]
      exact ih j (by simpa using h)

/-- **C6**: in `interp_va`, a target point whose normalized coordinate
lies below every (oriented) source coordinate gets interpolated value 0
before renormalization: extrapolation below the table is clamped to
zero, never extrapolated positively. -/
theorem interp_below_lowest_is_zero (x xp : List ℚ) (invert : Bool)
    (col : List ℚ) (i : ℕ) (hi : i < x.length) (hne : ¬ xp = [])
    (hbelow : ∀ p ∈ xp, x.getD i 0 < p) :
    (vaRawCol x xp invert col).getD i 0 = 0 := by
  unfold vaRawCol
  rw [getD_map_of_lt _ _ _ hi _ 0]
  cases xp with
  | nil => exact absurd rfl hne
  | cons x0 rest =>
    show npInterpLeft0 (x0 :: rest) _ _ = 0
    simp only [npInterpLeft0]
    rw [if_pos (hbelow x0 (List.mem_cons_self x0 rest))]

/-- Witness for C6: the target point `-1` lies below the source
coordinates `[0, 1]`, and the interpolated value is 0 although the
nearest source value is 5. -/
theorem interp_below_lowest_is_zero_witness :
    ((-1 : ℚ) < 0 ∧ (-1 : ℚ) < 1) ∧
      (vaRawCol [-1] [0, 1] false [5, 7]).getD 0 0 = 0 :=
  ⟨by norm_num,
    interp_below_lowest_is_zero [-1] [0, 1] false [5, 7] 0 (by decide)
      (by decide) (by decide)⟩

/-- Looking a key up after mapping a key-preserving, value-processing
function over a table yields the processed original column. -/
lemma lookupCol_map_process {α β : Type} (va_df : List (String × List α))
    (h : String → List α → List β) (key : String) :
    lookupCol (va_df.map (fun kv => (kv.1, h kv.1 kv.2))) key =
      (lookupCol va_df key).map (h key) := by
  unfold lookupCol
  rw [List.find?_map]
  have hp : ((fun kv : String × List β => decide (kv.1 = key)) ∘
      (fun kv : String × List α => (kv.1, h kv.1 kv.2))) =
      (fun kv : String × List α => decide (kv.1 = key)) := rfl
  rw [hp]
  cases hf : va_df.find? (fun kv => decide (kv.1 = key)) with
  | none => rfl
  | some e =>
    have hkey : e.1 = key := by simpa using List.find?_some hf
    simp [hkey]

/-- Setting one column leaves lookups of a different key unchanged. -/
lemma lookupCol_setCol_ne {α : Type} (cols : List (String × List α))
    (k key : String) (v : List α) (hne : ¬ key = k) :
    lookupCol (setCol cols k v) key = lookupCol cols key := by
  unfold setCol lookupCol
  by_cases hany : cols.any (fun kv => decide (kv.1 = k))
  · rw [if_pos hany, List.find?_map]
    have hp : ((fun kv : String × List α => decide (kv.1 = key)) ∘
        (fun kv : String × List α => if kv.1 = k then (kv.1, v) else kv)) =
        (fun kv : String × List α => decide (kv.1 = key)) := by
      funext kv
      by_cases h : kv.1 = k <;> simp [h]
    rw [hp]
    cases hf : cols.find? (fun kv => decide (kv.1 = key)) with
    | none => rfl
    | some e =>
      have hkey : e.1 = key := by simpa using List.find?_some hf
      have : ¬ e.1 = k := by rw [hkey]; exact hne
      simp [this]
  · rw [if_neg hany, List.find?_append]
    have hkne : ¬ k = key := fun h => hne h.symm
    have : List.find? (fun kv : String × List α => decide (kv.1 = key))
        [(k, v)] = none := by
      simp [List.find?, hkne]
    rw [this, Option.or_none]

/-- `interp_va`'s output column at a key other than `Sigma` is the
processed input column. -/
lemma getCol_interp_va (va_df : List (String × List ℚ)) (vglvls : List ℚ)
    (vgtop psfc : ℚ) (metakeys : List String) (key : String) (col : List ℚ)
    (hcol : lookupCol va_df key = some col) (hkey : ¬ key = "Sigma") :
    getCol (interp_va va_df vglvls vgtop psfc metakeys) key =
      interpCol (vaTargets vglvls) (vaXp va_df vgtop psfc)
        (vaInvert va_df vgtop psfc) metakeys key col := by
  unfold interp_va getCol
  rw [lookupCol_setCol_ne _ _ _ _ hkey, lookupCol_map_process, hcol]
  rfl

lemma sum_map_div (l : List ℚ) (s : ℚ) :
    (l.map (fun y => y / s)).sum = l.sum / s := by
  induction l with
  | nil => simp
  | cons a r ih => simp [ih, add_div]

/-- Amended **C2**: for every non-meta column other than `Sigma` whose
interpolated values have a *nonzero sum*, the column returned by
`interp_va` sums to exactly 1.  (The original claim's hypothesis "not
all zero" is not enough: values may cancel to a zero sum, in which case
the division produces infinities whose sum is NaN, not 1.) -/
theorem interp_va_renorm_sum_one (va_df : List (String × List ℚ))
    (vglvls : List ℚ) (vgtop psfc : ℚ) (metakeys : List String)
    (key : String) (col : List ℚ)
    (hcol : lookupCol va_df key = some col) (hmeta : ¬ key ∈ metakeys)
    (hkey : ¬ key = "Sigma")
    (hsum : (vaRawCol (vaTargets vglvls) (vaXp va_df vgtop psfc)
      (vaInvert va_df vgtop psfc) col).sum ≠ 0) :
    sumFV (getCol (interp_va va_df vglvls vgtop psfc metakeys) key) =
      FloatV.fin 1 := by
  rw [getCol_interp_va va_df vglvls vgtop psfc metakeys key col hcol hkey]
  unfold interpCol
  rw [if_neg hmeta]
  unfold renormIEEE
  set raw := vaRawCol (vaTargets vglvls) (vaXp va_df vgtop psfc)
    (vaInvert va_df vgtop psfc) col with hraw
  have hdiv : ∀ y : ℚ, FloatV.div (FloatV.fin y) (FloatV.fin raw.sum) =
      FloatV.fin (y / raw.sum) := by
    intro y
    simp only [FloatV.div]
    rw [if_neg hsum]
  calc sumFV (raw.map (fun y => FloatV.div (FloatV.fin y) (FloatV.fin raw.sum)))
      = sumFV ((raw.map (fun y => y / raw.sum)).map FloatV.fin) := by
        rw [List.map_map]
        exact congrArg sumFV (List.map_congr_left (fun y _ => hdiv y))
    _ = FloatV.fin ((raw.map (fun y => y / raw.sum)).sum) := sumFV_map_fin _
    _ = FloatV.fin 1 := by rw [sum_map_div, div_self hsum]

/-- Witness for the amended C2 at a concrete table. -/
theorem interp_va_renorm_sum_one_witness :
    sumFV (getCol (interp_va [("Pressure", [(0:ℚ), 1]), ("A", [2, 2])]
      [9, 0, 1] 0 1 ["Sigma", "Alt", "L"]) "A") = FloatV.fin 1 :=
  interp_va_renorm_sum_one [("Pressure", [(0:ℚ), 1]), ("A", [2, 2])]
    [9, 0, 1] 0 1 ["Sigma", "Alt", "L"] "A" [2, 2]
    (by simp +decide [lookupCol, List.find?])
    (by decide) (by decide)
    (by simp +decide [vaRawCol, vaTargets, vaXp, vaInvert, vaXpRaw, getCol,
      lookupCol, npInterpLeft0, interpSeg, List.find?])

/-- Counterexample to **C2** as stated: the non-meta column `A` has
interpolated values `[1, -1]`, not all zero, yet the returned column is
`[+inf, -inf]` (division by the zero sum), whose sum is NaN, not 1. -/
theorem interp_va_sum_one_counterexample :
    ¬ "A" ∈ (["Sigma", "Alt", "L"] : List String) ∧
    ¬ (∀ y ∈ vaRawCol (vaTargets [9, 0, 1])
        (vaXp [("Pressure", [(0:ℚ), 1]), ("A", [1, -1])] 0 1)
        (vaInvert [("Pressure", [(0:ℚ), 1]), ("A", [1, -1])] 0 1)
        [1, -1], y = 0) ∧
    ¬ sumFV (getCol (interp_va [("Pressure", [(0:ℚ), 1]), ("A", [1, -1])]
        [9, 0, 1] 0 1 ["Sigma", "Alt", "L"]) "A") = FloatV.fin 1 := by
  refine ⟨by decide, ?_, ?_⟩
  · intro hall
    have h1 : (1 : ℚ) ∈ vaRawCol (vaTargets [9, 0, 1])
        (vaXp [("Pressure", [(0:ℚ), 1]), ("A", [1, -1])] 0 1)
        (vaInvert [("Pressure", [(0:ℚ), 1]), ("A", [1, -1])] 0 1)
        [1, -1] := by
      simp +decide [vaRawCol, vaTargets, vaXp, vaInvert, vaXpRaw, getCol,
        lookupCol, npInterpLeft0, interpSeg, List.find?]
    exact one_ne_zero (hall 1 h1)
  · have : getCol (interp_va [("Pressure", [(0:ℚ), 1]), ("A", [1, -1])]
        [9, 0, 1] 0 1 ["Sigma", "Alt", "L"]) "A" =
        [FloatV.inf, FloatV.ninf] := by
      simp +decide [interp_va, setCol, interpCol, vaRawCol, vaTargets, vaXp,
        vaInvert, vaXpRaw, getCol, lookupCol, renormIEEE, npInterpLeft0,
        interpSeg, FloatV.div, List.find?]
    rw [this]
    simp [sumFV, FloatV.add]

lemma FloatV.mul_nan (v : FloatV) : v.mul FloatV.nan = FloatV.nan := by
  cases v <;> rfl

/-- Scaling any data by an all-NaN fraction vector yields NaN cells. -/
lemma scaleByFracs_all_nan : ∀ (fracs : List FloatV)
    (data : List (List FloatV)), (∀ fr ∈ fracs, fr = FloatV.nan) →
    ∀ row ∈ scaleByFracs fracs data, ∀ c ∈ row, c = FloatV.nan := by
  intro fracs
  induction fracs with
  | nil =>
    intro data _ row hrow
    simp [scaleByFracs] at hrow
  | cons fr rest ih =>
    intro data hall row hrow
    cases data with
    | nil => simp [scaleByFracs] at hrow
    | cons r rs =>
      simp only [scaleByFracs, List.zipWith_cons_cons] at hrow
      rcases List.mem_cons.1 hrow with h | h
      · subst h
        intro c hc
        rcases List.mem_map.1 hc with ⟨v, _, rfl⟩
        rw [hall fr (List.mem_cons_self _ _)]
        exact FloatV.mul_nan v
      · exact ih rs (fun fr2 h2 => hall fr2 (List.mem_cons_of_mem _ h2)) row h

/-- A non-`TFLAG` variable of a `make3d` output carries data produced by
the in-place scaling. -/
lemma make3d_mem_scaled (infile : PncFile) (fracs : List FloatV)
    (vglvls : List ℚ) (k : String) (w : PncVar)
    (hmem : (k, w) ∈ (make3d infile fracs vglvls).vars)
    (hk : ¬ k = "TFLAG") :
    ∃ d, w.data = scaleByFracs fracs d := by
  simp only [make3d, sliceLAY, List.map_map] at hmem
  rcases List.mem_map.1 hmem with ⟨⟨k0, v0⟩, hkv0, heq⟩
  simp only [Function.comp_apply] at heq
  by_cases hlay : v0.hasLAY = true
  · rw [if_pos hlay] at heq
    dsimp only at heq
    by_cases ht : k0 = "TFLAG"
    · rw [if_pos ht] at heq
      cases heq
      exact absurd ht hk
    · rw [if_neg ht] at heq
      cases heq
      exact ⟨_, rfl⟩
  · rw [if_neg hlay] at heq
    dsimp only at heq
    by_cases ht : k0 = "TFLAG"
    · rw [if_pos ht] at heq
      cases heq
      exact absurd ht hk
    · rw [if_neg ht] at heq
      cases heq
      exact ⟨_, rfl⟩

/-- Amended **C3**: `interp_va` does not raise on a sector with no
overlap, but `0/0` is NaN, not 0: a non-meta column whose interpolated
values are all zero is returned as an all-NaN column, and `make3d`
driven by all-NaN fractions produces an all-NaN (not all-zero) field on
every layer. -/
theorem zero_sector_nan_behavior :
    (∀ (va_df : List (String × List ℚ)) (vglvls : List ℚ) (vgtop psfc : ℚ)
      (metakeys : List String) (key : String) (col : List ℚ),
      lookupCol va_df key = some col → ¬ key ∈ metakeys →
      ¬ key = "Sigma" →
      (∀ y ∈ vaRawCol (vaTargets vglvls) (vaXp va_df vgtop psfc)
        (vaInvert va_df vgtop psfc) col, y = 0) →
      getCol (interp_va va_df vglvls vgtop psfc metakeys) key =
        (vaRawCol (vaTargets vglvls) (vaXp va_df vgtop psfc)
          (vaInvert va_df vgtop psfc) col).map (fun _ => FloatV.nan)) ∧
    (∀ (infile : PncFile) (fracs : List FloatV) (vglvls : List ℚ)
      (k : String) (w : PncVar),
      (k, w) ∈ (make3d infile fracs vglvls).vars → ¬ k = "TFLAG" →
      (∀ fr ∈ fracs, fr = FloatV.nan) →
      ∀ row ∈ w.data, ∀ c ∈ row, c = FloatV.nan) := by
  constructor
  · intro va_df vglvls vgtop psfc metakeys key col hcol hmeta hkey hzero
    rw [getCol_interp_va va_df vglvls vgtop psfc metakeys key col hcol hkey]
    unfold interpCol
    rw [if_neg hmeta]
    unfold renormIEEE
    have hs : (vaRawCol (vaTargets vglvls) (vaXp va_df vgtop psfc)
        (vaInvert va_df vgtop psfc) col).sum = 0 :=
      List.sum_eq_zero hzero
    apply List.map_congr_left
    intro y hy
    rw [hzero y hy, hs]
    simp [FloatV.div]
  · intro infile fracs vglvls k w hmem hk hfr
    rcases make3d_mem_scaled infile fracs vglvls k w hmem hk with ⟨d, hd⟩
    rw [hd]
    exact scaleByFracs_all_nan fracs d hfr

/-- Witness for the amended C3: a concrete zero-overlap sector column
comes back all-NaN, and a `make3d` output scaled by NaN fractions is NaN
everywhere. -/
theorem zero_sector_nan_behavior_witness :
    (getCol (interp_va [("Pressure", [(0:ℚ), 1]), ("A", [0, 0])] [9, 0, 1]
        0 1 ["Sigma", "Alt", "L"]) "A" =
      (vaRawCol (vaTargets [9, 0, 1])
        (vaXp [("Pressure", [(0:ℚ), 1]), ("A", [0, 0])] 0 1)
        (vaInvert [("Pressure", [(0:ℚ), 1]), ("A", [0, 0])] 0 1)
        [0, 0]).map (fun _ => FloatV.nan)) ∧
    (∀ row ∈ (⟨true, [[FloatV.nan]]⟩ : PncVar).data, ∀ c ∈ row,
      c = FloatV.nan) :=
  ⟨zero_sector_nan_behavior.1 [("Pressure", [(0:ℚ), 1]), ("A", [0, 0])]
      [9, 0, 1] 0 1 ["Sigma", "Alt", "L"] "A" [0, 0]
      (by simp +decide [lookupCol, List.find?]) (by decide) (by decide)
      (by simp +decide [vaRawCol, vaTargets, vaXp, vaInvert, vaXpRaw, getCol,
        lookupCol, npInterpLeft0, interpSeg, List.find?]),
   zero_sector_nan_behavior.2
      ⟨[("E", ⟨true, [[FloatV.fin 10]]⟩)], [1, 0], 1⟩ [FloatV.nan] [1, 0]
      "E" ⟨true, [[FloatV.nan]]⟩ (by decide) (by decide) (by decide)⟩

/-- Counterexample to **C3** as stated: for the sector column `A` whose
interpolated values are all zero, the renormalized column is
`[NaN, NaN]`, not all zeros. -/
theorem interp_va_zero_sector_counterexample :
    (∀ y ∈ vaRawCol (vaTargets [9, 0, 1])
        (vaXp [("Pressure", [(0:ℚ), 1]), ("A", [0, 0])] 0 1)
        (vaInvert [("Pressure", [(0:ℚ), 1]), ("A", [0, 0])] 0 1)
        [0, 0], y = 0) ∧
    ¬ (∀ y ∈ getCol (interp_va [("Pressure", [(0:ℚ), 1]), ("A", [0, 0])]
        [9, 0, 1] 0 1 ["Sigma", "Alt", "L"]) "A", y = FloatV.fin 0) := by
  constructor
  · simp +decide [vaRawCol, vaTargets, vaXp, vaInvert, vaXpRaw, getCol,
      lookupCol, npInterpLeft0, interpSeg, List.find?]
  · have hcol : getCol (interp_va [("Pressure", [(0:ℚ), 1]), ("A", [0, 0])]
        [9, 0, 1] 0 1 ["Sigma", "Alt", "L"]) "A" =
        [FloatV.nan, FloatV.nan] := by
      simp +decide [interp_va, setCol, interpCol, vaRawCol, vaTargets, vaXp,
        vaInvert, vaXpRaw, getCol, lookupCol, renormIEEE, npInterpLeft0,
        interpSeg, FloatV.div, List.find?]
    rw [hcol]
    intro hall
    exact absurd (hall FloatV.nan (List.mem_cons_self _ _)) (by decide)

/-- With a single `None` sector, `resolveAllocKeys` succeeds and updates
that sector's entry to the unassigned eligible variables. -/
lemma resolve_single (alloc_keys : List (String × Option (List String)))
    (all_keys : List String) (s : String)
    (hone : alloc_keys.filter (fun kv => decide (kv.2 = none)) = [(s, none)]) :
    resolveAllocKeys alloc_keys all_keys =
      Except.ok (alloc_keys.map (fun kv =>
        if kv.1 = s then (kv.1, some (unassignedKeys alloc_keys all_keys))
        else kv)) := by
  have hns : noneSectors alloc_keys = [s] := by
    rw [noneSectors, hone]
    rfl
  unfold resolveAllocKeys
  rw [hns]
  norm_num

/-- **C7**: the sector-assignment resolution of `Vertical.allocate`
raises when more than one sector has a `None` variable list; with
exactly one `None` sector, that sector is assigned exactly the eligible
(`LAY`-carrying) variables not explicitly assigned to other sectors. -/
theorem allocate_default_sector :
    (∀ (alloc_keys : List (String × Option (List String)))
      (all_keys : List String), 1 < (noneSectors alloc_keys).length →
      ∃ e, resolveAllocKeys alloc_keys all_keys = Except.error e) ∧
    (∀ (alloc_keys : List (String × Option (List String))) (f : PncFile)
      (s : String),
      alloc_keys.filter (fun kv => decide (kv.2 = none)) = [(s, none)] →
      ∃ m', resolveAllocKeys alloc_keys (allKeys f) = Except.ok m' ∧
        (s, some (unassignedKeys alloc_keys (allKeys f))) ∈ m' ∧
        ∀ key, key ∈ unassignedKeys alloc_keys (allKeys f) ↔
          (key ∈ allKeys f ∧ ¬ key ∈ assignedKeys alloc_keys)) := by
  constructor
  · intro alloc_keys all_keys hlen
    refine ⟨"Can only have 1 None sector", ?_⟩
    unfold resolveAllocKeys
    rw [if_pos hlen]
  · intro alloc_keys f s hone
    refine ⟨_, resolve_single alloc_keys (allKeys f) s hone, ?_, ?_⟩
    · have hsn : (s, (none : Option (List String))) ∈ alloc_keys :=
        List.mem_of_mem_filter (by rw [hone]; exact List.mem_cons_self _ _)
      refine List.mem_map.2 ⟨(s, none), hsn, ?_⟩
      simp
    · intro key
      unfold unassignedKeys
      simp [List.mem_filter]

/-- Witness for C7: two `None` sectors error out; with
`{"onroad": ["NOX"], "other": None}` over a file with variables
`NOX` and `CO`, the default sector exists and `CO` is unassigned. -/
theorem allocate_default_sector_witness :
    (∃ e, resolveAllocKeys [("a", none), ("b", none)] ([] : List String) =
      Except.error e) ∧
    (∃ m', resolveAllocKeys [("onroad", some ["NOX"]), ("other", none)]
        (allKeys ⟨[("NOX", ⟨true, [[]]⟩), ("CO", ⟨true, [[]]⟩)], [], 0⟩) =
        Except.ok m' ∧
      ("other", some (unassignedKeys
        [("onroad", some ["NOX"]), ("other", none)]
        (allKeys ⟨[("NOX", ⟨true, [[]]⟩), ("CO", ⟨true, [[]]⟩)], [], 0⟩))) ∈
        m' ∧
      ∀ key, key ∈ unassignedKeys
          [("onroad", some ["NOX"]), ("other", none)]
          (allKeys ⟨[("NOX", ⟨true, [[]]⟩), ("CO", ⟨true, [[]]⟩)], [], 0⟩) ↔
        (key ∈ allKeys ⟨[("NOX", ⟨true, [[]]⟩), ("CO", ⟨true, [[]]⟩)], [], 0⟩ ∧
          ¬ key ∈ assignedKeys
            [("onroad", some ["NOX"]), ("other", none)])) ∧
    "CO" ∈ unassignedKeys [("onroad", some ["NOX"]), ("other", none)]
      (allKeys ⟨[("NOX", ⟨true, [[]]⟩), ("CO", ⟨true, [[]]⟩)], [], 0⟩) :=
  ⟨allocate_default_sector.1 [("a", none), ("b", none)] [] (by decide),
   allocate_default_sector.2 [("onroad", some ["NOX"]), ("other", none)]
     ⟨[("NOX", ⟨true, [[]]⟩), ("CO", ⟨true, [[]]⟩)], [], 0⟩ "other"
     (by decide),
   by decide⟩

/-- **C10**: with exactly one `None` sector, the resolution step of
`Vertical.allocate` replaces the `None` value in the caller-supplied
mapping (`alloc_keys[isnone[0]] = unassigned_keys` mutates the caller's
dict): the mapping after the call differs from the one passed in. -/
theorem allocate_updates_caller_mapping
    (alloc_keys : List (String × Option (List String)))
    (all_keys : List String) (s : String)
    (hnd : (alloc_keys.map (fun kv => kv.1)).Nodup)
    (hone : alloc_keys.filter (fun kv => decide (kv.2 = none)) = [(s, none)]) :
    ∃ m', resolveAllocKeys alloc_keys all_keys = Except.ok m' ∧
      ¬ m' = alloc_keys := by
  refine ⟨_, resolve_single alloc_keys all_keys s hone, ?_⟩
  intro hEq
  have hsn : (s, (none : Option (List String))) ∈ alloc_keys :=
    List.mem_of_mem_filter (by rw [hone]; exact List.mem_cons_self _ _)
  have hupd : (s, some (unassignedKeys alloc_keys all_keys)) ∈
      alloc_keys.map (fun kv =>
        if kv.1 = s then (kv.1, some (unassignedKeys alloc_keys all_keys))
        else kv) := by
    refine List.mem_map.2 ⟨(s, none), hsn, ?_⟩
    simp
  rw [hEq] at hupd
  have hcontra := List.inj_on_of_nodup_map hnd hupd hsn rfl
  simp at hcontra

/-- Witness for C10 at the spec's example mapping. -/
theorem allocate_updates_caller_mapping_witness :
    ∃ m', resolveAllocKeys [("onroad", some ["NOX"]), ("other", none)]
        ["NOX", "CO"] = Except.ok m' ∧
      ¬ m' = [("onroad", some ["NOX"]), ("other", none)] :=
  allocate_updates_caller_mapping
    [("onroad", some ["NOX"]), ("other", none)] ["NOX", "CO"] "other"
    (by decide) (by decide)

lemma getD_replicate_of_lt {α : Type} (n i : ℕ) (a d : α) (h : i < n) :
    (List.replicate n a).getD i d = a := by
  rw [List.getD_eq_getElem _ _ (by simpa using h)]
  exact List.getElem_replicate a _

lemma getD_set_zero {α : Type} (l : List α) (a d : α) (h : 0 < l.length) :
    (l.set 0 a).getD 0 d = a := by
  rw [List.getD_eq_getElem _ _ (by simpa using h)]
  exact List.getElem_set_self _

lemma getD_set_zero_ne {α : Type} (l : List α) (i : ℕ) (a d : α)
    (h : ¬ i = 0) : (l.set 0 a).getD i d = l.getD i d := by
  simp [List.getD, List.getElem?_set_ne (fun hh => h hh.symm)]

lemma getD_range_of_lt (n i d : ℕ) (h : i < n) :
    (List.range n).getD i d = i := by
  rw [List.getD_eq_getElem _ _ (by simpa using h)]
  exact List.getElem_range _ _

lemma FloatV.add_fin_zero (v : FloatV) : v.add (FloatV.fin 0) = v := by
  cases v <;> simp [FloatV.add]

lemma sumFV_append_fin_zero (l : List FloatV) :
    sumFV (l ++ [FloatV.fin 0]) = sumFV l := by
  unfold sumFV
  rw [List.foldl_append]
  simp [FloatV.add_fin_zero]

/-- Away from row 0, the appended `LAYER1` indicator contributes `0` to
the non-meta row sum. -/
lemma sectorRowSum_addLayer1 (cols : List (String × List FloatV))
    (metakeys : List String) (nrows i : ℕ) (hi : i < nrows) (h0 : ¬ i = 0)
    (hl1 : ¬ "LAYER1" ∈ metakeys) :
    sectorRowSum (addLayer1 cols nrows) metakeys i =
      sectorRowSum cols metakeys i := by
  unfold sectorRowSum addLayer1
  rw [List.filter_append]
  have hsingle : List.filter (fun kv => decide (¬ kv.1 ∈ metakeys))
      [("LAYER1", (List.range nrows).map
        (fun t => if t = 0 then FloatV.fin 1 else FloatV.fin 0))] =
      [("LAYER1", (List.range nrows).map
        (fun t => if t = 0 then FloatV.fin 1 else FloatV.fin 0))] := by
    simp [hl1]
  rw [hsingle, List.map_append]
  have hget : ((List.range nrows).map
      (fun t => if t = 0 then FloatV.fin 1 else FloatV.fin 0)).getD i
        (FloatV.fin 0) = FloatV.fin 0 := by
    rw [getD_map_of_lt _ _ _ (by simpa using hi) _ 0,
      getD_range_of_lt _ _ _ hi]
    simp [h0]
  simp only [List.map_cons, List.map_nil, hget]
  exact sumFV_append_fin_zero _

/-- **C8**: in the `layerused` mask that `Vertical.__init__` filters the
interpolated profile by, a row is used exactly when it is the first row
(always forced true) or the sum of its non-meta sector values is
strictly positive; with `prune = False` every row is used. -/
theorem vertical_prune_mask (cols : List (String × List FloatV))
    (metakeys : List String) (nrows : ℕ) (prune : Bool) (i : ℕ)
    (hi : i < nrows) (hl1 : ¬ "LAYER1" ∈ metakeys) :
    (usedMask (addLayer1 cols nrows) metakeys nrows prune).getD i false =
      (if prune then (decide (i = 0) ||
        FloatV.gtZero (sectorRowSum cols metakeys i)) else true) := by
  cases prune with
  | false =>
    show (List.replicate nrows true).getD i false = true
    exact getD_replicate_of_lt _ _ _ _ hi
  | true =>
    show (((rowSums (addLayer1 cols nrows) metakeys nrows).map
        FloatV.gtZero).set 0 true).getD i false =
      (decide (i = 0) || FloatV.gtZero (sectorRowSum cols metakeys i))
    by_cases h0 : i = 0
    · subst h0
      rw [getD_set_zero _ _ _ (by simp [rowSums]; exact hi)]
      simp
    · rw [getD_set_zero_ne _ _ _ _ h0,
        getD_map_of_lt FloatV.gtZero _ i (by simp [rowSums]; exact hi)
          false (FloatV.fin 0)]
      unfold rowSums
      rw [getD_map_of_lt _ _ i (by simpa using hi) _ 0,
        getD_range_of_lt _ _ _ hi,
        sectorRowSum_addLayer1 cols metakeys nrows i hi h0 hl1]
      simp [h0]

/-- Witness for C8: a profile whose first row has an all-zero sector sum
still has the first row marked used when pruning is on. -/
theorem vertical_prune_mask_witness :
    ((usedMask (addLayer1 [("s", [FloatV.fin 0, FloatV.fin 2])] 2)
        ["Sigma"] 2 true).getD 0 false =
      (if true then (decide ((0 : ℕ) = 0) || FloatV.gtZero
        (sectorRowSum [("s", [FloatV.fin 0, FloatV.fin 2])] ["Sigma"] 0))
       else true)) ∧
    FloatV.gtZero (sectorRowSum [("s", [FloatV.fin 0, FloatV.fin 2])]
      ["Sigma"] 0) = false :=
  ⟨vertical_prune_mask [("s", [FloatV.fin 0, FloatV.fin 2])] ["Sigma"] 2
      true 0 (by decide) (by decide),
   by simp +decide [sectorRowSum, sumFV, FloatV.add, FloatV.gtZero,
     List.filter]⟩

/-- A table with its rows in reversed order: every column reversed,
column names and order kept. -/
def revDF (df : List (String × List ℚ)) : List (String × List ℚ) :=
  df.map (fun kv => (kv.1, kv.2.reverse))

lemma getCol_revDF (df : List (String × List ℚ)) (k : String) :
    getCol (revDF df) k = (getCol df k).reverse := by
  unfold revDF getCol
  rw [lookupCol_map_process df (fun _ c => c.reverse) k]
  cases lookupCol df k <;> simp

lemma vaXpRaw_revDF (df : List (String × List ℚ)) (vgtop psfc : ℚ) :
    vaXpRaw (revDF df) vgtop psfc = (vaXpRaw df vgtop psfc).reverse := by
  unfold vaXpRaw
  rw [getCol_revDF, List.map_reverse]

lemma headD_reverse (l : List ℚ) (d : ℚ) : l.reverse.headD d = l.getLastD d := by
  rw [List.headD_eq_head?_getD, List.head?_reverse, List.getLastD_eq_getLast?]

lemma getLastD_reverse (l : List ℚ) (d : ℚ) :
    l.reverse.getLastD d = l.headD d := by
  rw [List.getLastD_eq_getLast?, List.getLast?_reverse, List.headD_eq_head?_getD]

lemma headD_lt_getLastD_of_chain (l : List ℚ)
    (hc : l.Chain' (· < ·)) (hl : 1 < l.length) :
    l.headD 0 < l.getLastD 0 := by
  induction l with
  | nil => simp at hl
  | cons a rest ih =>
    cases rest with
    | nil => simp at hl
    | cons b rest2 =>
      rcases List.chain'_cons.1 hc with ⟨hab, hcb⟩
      have hlast : (a :: b :: rest2).getLastD 0 = (b :: rest2).getLastD 0 := by
        rw [List.getLastD_eq_getLast?, List.getLastD_eq_getLast?]
        simp
      rw [hlast]
      cases rest2 with
      | nil => simpa using hab
      | cons c rest3 =>
        have := ih hcb (by simp)
        simp only [List.headD_cons] at this ⊢
        exact lt_trans hab this

lemma getLastD_lt_headD_of_chain (l : List ℚ)
    (hc : l.Chain' (· > ·)) (hl : 1 < l.length) :
    l.getLastD 0 < l.headD 0 := by
  induction l with
  | nil => simp at hl
  | cons a rest ih =>
    cases rest with
    | nil => simp at hl
    | cons b rest2 =>
      rcases List.chain'_cons.1 hc with ⟨hab, hcb⟩
      have hlast : (a :: b :: rest2).getLastD 0 = (b :: rest2).getLastD 0 := by
        rw [List.getLastD_eq_getLast?, List.getLastD_eq_getLast?]
        simp
      rw [hlast]
      cases rest2 with
      | nil => simpa using hab
      | cons c rest3 =>
        have := ih hcb (by simp)
        simp only [List.headD_cons] at this ⊢
        exact lt_trans this hab

lemma headD_map (f : ℚ → ℚ) (l : List ℚ) (h : ¬ l = []) :
    (l.map f).headD 0 = f (l.headD 0) := by
  cases l with
  | nil => exact absurd rfl h
  | cons a rest => rfl

lemma getLastD_map (f : ℚ → ℚ) (l : List ℚ) (h : ¬ l = []) :
    (l.map f).getLastD 0 = f (l.getLastD 0) := by
  rw [List.getLastD_eq_getLast?, List.getLastD_eq_getLast?, List.getLast?_map]
  cases hl : l.getLast? with
  | none => exact absurd (List.getLast?_eq_none_iff.1 hl) h
  | some a => rfl

lemma reverse_short (l : List ℚ) (h : l.length ≤ 1) : l.reverse = l := by
  cases l with
  | nil => rfl
  | cons a rest =>
    cases rest with
    | nil => rfl
    | cons b r => simp at h

lemma interpCol_congr (x xp1 xp2 : List ℚ) (invert1 invert2 : Bool)
    (metakeys : List String) (key : String) (col1 col2 : List ℚ)
    (hxp : xp1 = xp2)
    (hor : (if invert1 then col1.reverse else col1) =
           (if invert2 then col2.reverse else col2)) :
    interpCol x xp1 invert1 metakeys key col1 =
      interpCol x xp2 invert2 metakeys key col2 := by
  unfold interpCol vaRawCol
  rw [hxp, hor]

/-- Mapping over a row-reversed table pointwise. -/
lemma map_revDF_eq {A : Type} (F G : (String × List ℚ) → A)
    (l : List (String × List ℚ))
    (h : ∀ kv ∈ l, F (kv.1, kv.2.reverse) = G kv) :
    (revDF l).map F = l.map G := by
  unfold revDF
  rw [List.map_map]
  exact List.map_congr_left h

/-- **C5**: orientation invariance of `interp_va`: for a table whose
pressure column is strictly monotone (the increasing-vs-decreasing
scenario of the claim; `psfc ≠ vgtop` keeps the normalization injective,
and all columns have the pressure column's length, as in a DataFrame),
interpolating the row-reversed table yields the same output table. -/
theorem interp_va_orientation (va_df : List (String × List ℚ))
    (vglvls : List ℚ) (vgtop psfc : ℚ) (metakeys : List String)
    (hlen : ∀ kv ∈ va_df,
      (kv.2 : List ℚ).length = (getCol va_df "Pressure").length)
    (hmono : (getCol va_df "Pressure").Chain' (· < ·) ∨
      (getCol va_df "Pressure").Chain' (· > ·))
    (hne : ¬ psfc = vgtop) :
    interp_va (revDF va_df) vglvls vgtop psfc metakeys =
      interp_va va_df vglvls vgtop psfc metakeys := by
  have hmain : (revDF va_df).map (fun kv => (kv.1,
      interpCol (vaTargets vglvls) (vaXp (revDF va_df) vgtop psfc)
        (vaInvert (revDF va_df) vgtop psfc) metakeys kv.1 kv.2)) =
      va_df.map (fun kv => (kv.1,
      interpCol (vaTargets vglvls) (vaXp va_df vgtop psfc)
        (vaInvert va_df vgtop psfc) metakeys kv.1 kv.2)) := by
    apply map_revDF_eq
    intro kv hkv
    rcases lt_trichotomy ((vaXpRaw va_df vgtop psfc).headD 0)
      ((vaXpRaw va_df vgtop psfc).getLastD 0) with hlt | heq | hgt
    · have hInvOrig : vaInvert va_df vgtop psfc = false := by
        unfold vaInvert
        exact decide_eq_false (asymm hlt)
      have hIR : vaInvert (revDF va_df) vgtop psfc = true := by
        unfold vaInvert
        rw [vaXpRaw_revDF, headD_reverse, getLastD_reverse]
        exact decide_eq_true hlt
      refine congrArg (fun c => (kv.1, c))
        (interpCol_congr _ _ _ _ _ _ _ _ _ ?_ ?_)
      · unfold vaXp
        rw [hInvOrig, hIR, vaXpRaw_revDF]
        simp
      · rw [hInvOrig, hIR]
        simp
    · have hpne1 : (getCol va_df "Pressure").length ≤ 1 := by
        by_contra hbig
        push_neg at hbig
        have hpne : ¬ (getCol va_df "Pressure") = [] := by
          intro h
          rw [h] at hbig
          simp at hbig
        have hfh := headD_map (fun p => (p - vgtop) / (psfc - vgtop))
          (getCol va_df "Pressure") hpne
        have hfl := getLastD_map (fun p => (p - vgtop) / (psfc - vgtop))
          (getCol va_df "Pressure") hpne
        have heqm := heq
        unfold vaXpRaw at heqm
        rw [hfh, hfl] at heqm
        simp only at heqm
        have hc : psfc - vgtop ≠ 0 := sub_ne_zero.2 (fun hh => hne hh)
        have heads : (getCol va_df "Pressure").headD 0 =
            (getCol va_df "Pressure").getLastD 0 := by
          field_simp at heqm
          rw [List.headD_eq_head?_getD, List.getLastD_eq_getLast?]
          exact heqm
        rcases hmono with hm | hm
        · exact absurd heads (ne_of_lt
            (headD_lt_getLastD_of_chain _ hm hbig))
        · exact absurd heads (ne_of_gt
            (getLastD_lt_headD_of_chain _ hm hbig))
      have hxplen : (vaXpRaw va_df vgtop psfc).length ≤ 1 := by
        unfold vaXpRaw
        simpa using hpne1
      have hxprev : (vaXpRaw va_df vgtop psfc).reverse =
          vaXpRaw va_df vgtop psfc := reverse_short _ hxplen
      have hInvOrig : vaInvert va_df vgtop psfc = false := by
        unfold vaInvert
        rw [heq]
        exact decide_eq_false (lt_irrefl _)
      have hIR : vaInvert (revDF va_df) vgtop psfc = false := by
        unfold vaInvert
        rw [vaXpRaw_revDF, headD_reverse, getLastD_reverse, heq]
        exact decide_eq_false (lt_irrefl _)
      have hcolrev : (kv.2 : List ℚ).reverse = kv.2 := by
        apply reverse_short
        rw [hlen kv hkv]
        exact hpne1
      refine congrArg (fun c => (kv.1, c))
        (interpCol_congr _ _ _ _ _ _ _ _ _ ?_ ?_)
      · unfold vaXp
        rw [hInvOrig, hIR, vaXpRaw_revDF, hxprev]
        simp
      · rw [hInvOrig, hIR]
        simp [hcolrev]
    · have hInvOrig : vaInvert va_df vgtop psfc = true := by
        unfold vaInvert
        exact decide_eq_true hgt
      have hIR : vaInvert (revDF va_df) vgtop psfc = false := by
        unfold vaInvert
        rw [vaXpRaw_revDF, headD_reverse, getLastD_reverse]
        exact decide_eq_false (asymm hgt)
      refine congrArg (fun c => (kv.1, c))
        (interpCol_congr _ _ _ _ _ _ _ _ _ ?_ ?_)
      · unfold vaXp
        rw [hInvOrig, hIR, vaXpRaw_revDF]
        simp
      · rw [hInvOrig, hIR]
        simp
  simp only [interp_va]
  rw [hmain]

/-- Witness for C5: a three-row table with a strictly decreasing
pressure column interpolates identically to its row-reversed version. -/
theorem interp_va_orientation_witness :
    interp_va (revDF [("Pressure", [(3:ℚ), 2, 1]), ("A", [5, 6, 7])])
        [9, 0, 1] 0 1 ["Sigma", "Alt", "L"] =
      interp_va [("Pressure", [(3:ℚ), 2, 1]), ("A", [5, 6, 7])]
        [9, 0, 1] 0 1 ["Sigma", "Alt", "L"] :=
  interp_va_orientation [("Pressure", [(3:ℚ), 2, 1]), ("A", [5, 6, 7])]
    [9, 0, 1] 0 1 ["Sigma", "Alt", "L"] (by decide)
    (Or.inr (by simp +decide [getCol, lookupCol, List.find?,
      List.chain'_cons])) (by decide)

/-- Setting a column and reading it back yields the new value. -/
lemma getCol_setCol_self {α : Type} (cols : List (String × List α))
    (k : String) (v : List α) : getCol (setCol cols k v) k = v := by
  unfold setCol getCol lookupCol
  by_cases hany : cols.any (fun kv => decide (kv.1 = k))
  · rw [if_pos hany, List.find?_map]
    have hp : ((fun kv : String × List α => decide (kv.1 = k)) ∘
        (fun kv : String × List α => if kv.1 = k then (kv.1, v) else kv)) =
        (fun kv : String × List α => decide (kv.1 = k)) := by
      funext kv
      by_cases h : kv.1 = k <;> simp [h]
    rw [hp]
    cases hf : cols.find? (fun kv => decide (kv.1 = k)) with
    | none =>
      rcases List.any_eq_true.1 hany with ⟨e0, he0, hpe0⟩
      exact absurd hpe0 (by simpa using List.find?_eq_none.1 hf e0 he0)
    | some e =>
      have hkey : e.1 = k := by simpa using List.find?_some hf
      simp [hkey]
  · rw [if_neg hany, List.find?_append]
    have h1 : cols.find? (fun kv => decide (kv.1 = k)) = none := by
      rw [List.find?_eq_none]
      intro x hx
      simp only [decide_eq_true_eq]
      intro hxk
      exact hany (List.any_eq_true.2 ⟨x, hx, by simp [hxk]⟩)
    rw [h1]
    simp [List.find?]

/-- Every `LAY`-carrying variable of a `make3d` output has exactly
`fracs.length` layers. -/
lemma make3d_mem_layers (infile : PncFile) (fracs : List FloatV)
    (vglvls : List ℚ) (k : String) (w : PncVar)
    (hmem : (k, w) ∈ (make3d infile fracs vglvls).vars)
    (hlay : w.hasLAY = true) :
    w.data.length = fracs.length := by
  simp only [make3d, sliceLAY, List.map_map] at hmem
  rcases List.mem_map.1 hmem with ⟨⟨k0, v0⟩, hkv0, heq⟩
  simp only [Function.comp_apply] at heq
  by_cases hl0 : v0.hasLAY = true
  · rw [if_pos hl0] at heq
    dsimp only at heq
    by_cases ht : k0 = "TFLAG"
    · rw [if_pos ht] at heq
      cases heq
      simp
    · rw [if_neg ht] at heq
      cases heq
      simp [scaleByFracs]
  · rw [if_neg hl0] at heq
    dsimp only at heq
    by_cases ht : k0 = "TFLAG"
    · rw [if_pos ht] at heq
      cases heq
      exact absurd hlay hl0
    · rw [if_neg ht] at heq
      cases heq
      exact absurd hlay hl0

/-- Amended **C4**: `make3d` sets `NLAYS` to the number of vertical
layers of the data (the fraction-vector length) but stores the *entire*
caller-supplied `vglvls` array as `VGLVLS`, whose length is not in
general `NLAYS + 1`; and the profile rows correspond, in order, to
`vglvls[1:]` *of the array given to `interp_va`* — `Vertical.__init__`
passes `outvglvls[1:]`, so the resident rows correspond to
`outvglvls[2:]` (length `len(outvglvls) - 2`) even before pruning. -/
theorem vertical_metadata :
    (∀ (infile : PncFile) (fracs : List FloatV) (vglvls : List ℚ),
      (make3d infile fracs vglvls).nlays = fracs.length ∧
      (make3d infile fracs vglvls).vglvls = vglvls ∧
      ∀ kv ∈ (make3d infile fracs vglvls).vars, kv.2.hasLAY = true →
        kv.2.data.length = fracs.length) ∧
    (∀ (va_df : List (String × List ℚ)) (vglvls : List ℚ)
      (vgtop psfc : ℚ) (metakeys : List String),
      getCol (interp_va va_df vglvls vgtop psfc metakeys) "Sigma" =
        (vaTargets vglvls).map FloatV.fin) ∧
    (∀ outvglvls : List ℚ,
      verticalNRows outvglvls = outvglvls.length - 2) := by
  refine ⟨fun infile fracs vglvls => ⟨rfl, rfl, ?_⟩, ?_, ?_⟩
  · intro kv hkv hlay
    exact make3d_mem_layers infile fracs vglvls kv.1 kv.2 hkv hlay
  · intro va_df vglvls vgtop psfc metakeys
    unfold interp_va
    exact getCol_setCol_self _ _ _
  · intro outvglvls
    simp [verticalNRows, vaTargets]

/-- Witness for the amended C4 at concrete inputs. -/
theorem vertical_metadata_witness :
    ((make3d ⟨[("E", ⟨true, [[FloatV.fin 10]]⟩)], [9], 1⟩ [FloatV.fin 1]
        [1, 1/2, 0]).nlays = [FloatV.fin 1].length ∧
      (make3d ⟨[("E", ⟨true, [[FloatV.fin 10]]⟩)], [9], 1⟩ [FloatV.fin 1]
        [1, 1/2, 0]).vglvls = [1, 1/2, 0]) ∧
    (⟨true, [[FloatV.fin 10]]⟩ : PncVar).data.length =
      [FloatV.fin 1].length ∧
    getCol (interp_va [("Pressure", [(0:ℚ), 1])] [1/2, 0] 0 1 ["Sigma"])
      "Sigma" = (vaTargets [1/2, 0]).map FloatV.fin ∧
    verticalNRows [1, 1/2, 0] = [(1:ℚ), 1/2, 0].length - 2 :=
  ⟨⟨(vertical_metadata.1 ⟨[("E", ⟨true, [[FloatV.fin 10]]⟩)], [9], 1⟩
      [FloatV.fin 1] [1, 1/2, 0]).1,
    (vertical_metadata.1 ⟨[("E", ⟨true, [[FloatV.fin 10]]⟩)], [9], 1⟩
      [FloatV.fin 1] [1, 1/2, 0]).2.1⟩,
   (vertical_metadata.1 ⟨[("E", ⟨true, [[FloatV.fin 10]]⟩)], [9], 1⟩
      [FloatV.fin 1] [1, 1/2, 0]).2.2 ("E", ⟨true, [[FloatV.fin 10]]⟩)
      (by simp +decide [make3d, sliceLAY, scaleByFracs, FloatV.mul]) rfl,
   vertical_metadata.2.1 [("Pressure", [(0:ℚ), 1])] [1/2, 0] 0 1 ["Sigma"],
   vertical_metadata.2.2 [1, 1/2, 0]⟩

/-- Counterexample to **C4** as stated: for a concrete allocator built
on `outvglvls = [1, 1/2, 0]` with pruning off, `Vertical.allocate`
returns a file with `NLAYS = 1` but `VGLVLS = [1, 1/2, 0]` of length 3
— not `NLAYS + 1 = 2` — because both `__init__` and `interp_va` drop a
leading edge (rows follow `outvglvls[2:]`, not `target_edges[1:]`). -/
theorem vertical_metadata_counterexample :
    ∃ out, Vertical.allocate
      (Vertical.init [("Pressure", [(0:ℚ), 1]), ("s", [1, 1])]
        [1, 1/2, 0] 0 0 1 ["Sigma", "Pressure", "Alt", "L"] false)
      ⟨[("NOX", ⟨true, [[FloatV.fin 10]]⟩),
        ("TFLAG", ⟨false, [[FloatV.fin 7]]⟩)], [1, 1/2, 0], 1⟩
      [("s", none)] = Except.ok out ∧
    out.vglvls = [1, 1/2, 0] ∧ out.nlays = 1 ∧
    ¬ out.vglvls.length = out.nlays + 1 := by
  refine ⟨⟨[("NOX", ⟨true, [[FloatV.fin 10]]⟩)], [1, 1/2, 0], 1⟩, ?_, rfl,
    rfl, by decide⟩
  simp +decide [Vertical.init, Vertical.allocate, interp_va, setCol,
    interpCol, vaRawCol, vaTargets, vaXp, vaInvert, vaXpRaw, getCol,
    lookupCol, renormIEEE, npInterpLeft0, interpSeg, FloatV.div,
    List.find?, addLayer1, sectorRowSum, rowSums, usedMask, filterRows,
    verticalNRows, resolveAllocKeys, noneSectors, assignedKeys,
    unassignedKeys, allKeys, subsetF, make3d, sliceLAY, scaleByFracs,
    FloatV.mul, stackF, stackF.lookupColVar, sumFV, FloatV.add,
    FloatV.gtZero, List.filter, add_pressure]

lemma store_read_alloc (st : Store) (arrs : List (List (List FloatV)))
    (r : ℕ) (h : r < st.size) : (st.alloc arrs).read r = st.read r := by
  unfold Store.alloc Store.read Store.size at *
  simp [List.getD, List.getElem?_append_left h]

lemma store_read_write_ne (st : Store) (j : ℕ) (a : List (List FloatV))
    (r : ℕ) (h : ¬ r = j) : (st.write j a).read r = st.read r := by
  unfold Store.write Store.read
  simp [List.getD, List.getElem?_set_ne (fun hh => h hh.symm)]

lemma store_write_size (st : Store) (j : ℕ) (a : List (List FloatV)) :
    (st.write j a).size = st.size := by
  unfold Store.write Store.size
  exact List.length_set st j a

lemma freshVars_ref_ge : ∀ (l : List (String × PncVarR)) (n : ℕ)
    (kv : String × PncVarR), kv ∈ freshVars n l → n ≤ kv.2.ref := by
  intro l
  induction l with
  | nil => intro n kv h; simp [freshVars] at h
  | cons kv0 rest ih =>
    intro n kv h
    rcases List.mem_cons.1 h with h | h
    · subst h; exact le_refl n
    · exact le_trans (Nat.le_succ n) (ih (n + 1) kv h)

lemma foldl_scale_read (vars : List (String × PncVarR)) (fracs : List FloatV)
    (r : ℕ) : ∀ (st : Store), (∀ kv ∈ vars, ¬ kv.2.ref = r) →
    (vars.foldl (fun s kv =>
      if kv.1 = "TFLAG" then s else scaleRef kv.2.ref fracs s) st).read r =
      st.read r := by
  induction vars with
  | nil => intro st _; rfl
  | cons kv rest ih =>
    intro st hall
    rw [List.foldl_cons]
    rw [ih _ (fun kv2 h2 => hall kv2 (List.mem_cons_of_mem _ h2))]
    by_cases ht : kv.1 = "TFLAG"
    · rw [if_pos ht]
    · rw [if_neg ht]
      exact store_read_write_ne st kv.2.ref _ r
        (fun hh => hall kv (List.mem_cons_self _ _) hh.symm)

lemma foldl_scale_size (vars : List (String × PncVarR))
    (fracs : List FloatV) : ∀ (st : Store),
    (vars.foldl (fun s kv =>
      if kv.1 = "TFLAG" then s else scaleRef kv.2.ref fracs s) st).size =
      st.size := by
  induction vars with
  | nil => intro st; rfl
  | cons kv rest ih =>
    intro st
    rw [List.foldl_cons, ih]
    by_cases ht : kv.1 = "TFLAG"
    · rw [if_pos ht]
    · rw [if_neg ht]
      exact store_write_size st kv.2.ref _

lemma make3dR_read (f : PncFileR) (fracs : List FloatV) (vglvls : List ℚ)
    (st : Store) (r : ℕ) (hr : r < st.size) :
    (make3dR f fracs vglvls st).2.read r = st.read r := by
  unfold make3dR sliceLAYR
  dsimp only
  rw [foldl_scale_read _ _ _ _ ?hall]
  · exact store_read_alloc st _ r hr
  case hall =>
    intro kv hkv heq
    have := freshVars_ref_ge f.vars st.size kv hkv
    rw [heq] at this
    exact absurd hr (not_lt.2 this)

lemma alloc_size_ge (st : Store) (arrs : List (List (List FloatV))) :
    st.size ≤ (st.alloc arrs).size := by
  unfold Store.alloc Store.size
  simp

lemma make3dR_size (f : PncFileR) (fracs : List FloatV) (vglvls : List ℚ)
    (st : Store) : st.size ≤ (make3dR f fracs vglvls st).2.size := by
  unfold make3dR sliceLAYR
  dsimp only
  rw [foldl_scale_size]
  exact alloc_size_ge st _

lemma foldl_sectors_read (V : Vertical) (infile : PncFileR)
    (resolved : List (String × Option (List String))) :
    ∀ (fs : List PncFileR) (st : Store) (r : ℕ), r < st.size →
    ((resolved.foldl (fun (acc : List PncFileR × Store) kv =>
        ((acc.1 ++ [(make3dR (subsetR infile (kv.2.getD []))
          (getCol V.outdf kv.1) V.outvglvls acc.2).1]),
         (make3dR (subsetR infile (kv.2.getD []))
          (getCol V.outdf kv.1) V.outvglvls acc.2).2))
      (fs, st)).2.read r = st.read r ∧
     st.size ≤ (resolved.foldl (fun (acc : List PncFileR × Store) kv =>
        ((acc.1 ++ [(make3dR (subsetR infile (kv.2.getD []))
          (getCol V.outdf kv.1) V.outvglvls acc.2).1]),
         (make3dR (subsetR infile (kv.2.getD []))
          (getCol V.outdf kv.1) V.outvglvls acc.2).2))
      (fs, st)).2.size) := by
  induction resolved with
  | nil => intro fs st r hr; exact ⟨rfl, le_refl _⟩
  | cons kv rest ih =>
    intro fs st r hr
    rw [List.foldl_cons]
    have h1 := make3dR_read (subsetR infile (kv.2.getD []))
      (getCol V.outdf kv.1) V.outvglvls st r hr
    have h2 := make3dR_size (subsetR infile (kv.2.getD []))
      (getCol V.outdf kv.1) V.outvglvls st
    have := ih (fs ++ [(make3dR (subsetR infile (kv.2.getD []))
      (getCol V.outdf kv.1) V.outvglvls st).1])
      ((make3dR (subsetR infile (kv.2.getD []))
       (getCol V.outdf kv.1) V.outvglvls st).2) r (lt_of_lt_of_le hr h2)
    exact ⟨by rw [this.1, h1], le_trans h2 this.2⟩

lemma stackR_read (fs : List PncFileR) (st : Store) (r : ℕ)
    (hr : r < st.size) : (stackR fs st).2.read r = st.read r := by
  cases fs with
  | nil => rfl
  | cons f0 rest => exact store_read_alloc st _ r hr

/-- **C9**: neither `make3d` nor `Vertical.allocate` mutates the
caller-supplied input field: in the store-passing model, every array
that existed before the call — in particular every array referenced by
the input file's variables — is unchanged afterwards; the in-place
scaling touches only the freshly allocated arrays of the sliced copy. -/
theorem allocate_no_input_mutation :
    (∀ (f : PncFileR) (fracs : List FloatV) (vglvls : List ℚ)
      (st : Store) (r : ℕ), r < st.size →
      (make3dR f fracs vglvls st).2.read r = st.read r) ∧
    (∀ (V : Vertical) (infile : PncFileR)
      (alloc_keys : List (String × Option (List String)))
      (st : Store) (r : ℕ), r < st.size →
      (Vertical.allocateR V infile alloc_keys st).2.read r = st.read r) := by
  refine ⟨make3dR_read, ?_⟩
  intro V infile alloc_keys st r hr
  unfold Vertical.allocateR
  cases hres : resolveAllocKeys alloc_keys (allKeysR infile) with
  | error e => rfl
  | ok resolved =>
    dsimp only
    have hfold := foldl_sectors_read V infile resolved [] st r hr
    rw [stackR_read _ _ r (lt_of_lt_of_le hr hfold.2)]
    exact hfold.1

/-- Witness for C9: a one-array store holding the input variable's data
is untouched by a concrete `make3dR` call and a concrete
`Vertical.allocateR` call. -/
theorem allocate_no_input_mutation_witness :
    ((make3dR ⟨[("E", ⟨true, 0⟩)], [1, 0], 1⟩ [FloatV.fin 1] [1, 0]
        [[[FloatV.fin 10]]]).2.read 0 =
      Store.read [[[FloatV.fin 10]]] 0) ∧
    ((Vertical.allocateR ⟨[("s", [FloatV.fin 1])], [1, 0], ["Sigma"]⟩
        ⟨[("E", ⟨true, 0⟩)], [1, 0], 1⟩ [("s", some ["E"])]
        [[[FloatV.fin 10]]]).2.read 0 =
      Store.read [[[FloatV.fin 10]]] 0) :=
  ⟨allocate_no_input_mutation.1 ⟨[("E", ⟨true, 0⟩)], [1, 0], 1⟩
      [FloatV.fin 1] [1, 0] [[[FloatV.fin 10]]] 0 (by decide),
   allocate_no_input_mutation.2 ⟨[("s", [FloatV.fin 1])], [1, 0], ["Sigma"]⟩
      ⟨[("E", ⟨true, 0⟩)], [1, 0], 1⟩ [("s", some ["E"])]
      [[[FloatV.fin 10]]] 0 (by decide)⟩
